import Mathlib

/-!
Shallow embedding of `warframe_profit_calc.py`: a Warframe market profit
calculator.  The remote market service is modelled as an environment of
typed responses (`none` = transport failure caught by `_get`); the
rate-limiter's wall clock is modelled with rational time.  Definitions
follow the source functions of the same names.
-/

namespace WarframeCalc

/-- An order-book entry as read by the code: `o['type']`, `o['platinum']`,
`o['user']['status']`. -/
structure Order where
  otype : String
  platinum : Nat
  status : String
deriving DecidableEq, Repr

/-- Extended price: `fin p` is a real platinum price, `inf` models the
`float('inf')` sentinel returned by `get_lowest_sell_price` when no valid
order exists. -/
inductive EPrice where
  | fin (p : Nat)
  | inf
deriving DecidableEq, Repr

/-- Strict comparison on extended prices: the `inf` sentinel is larger than
every real price. -/
def EPrice.lt : EPrice → EPrice → Prop
  | .fin p, .fin q => p < q
  | .fin _, .inf => True
  | .inf, _ => False

/-- An item-detail payload as read by the code: `id`, `slug`,
`i18n.en.name`, `.get('setRoot', False)`, the optional `setParts` key, and
`.get('quantityInSet')` (`none` models an absent or null field). -/
structure Item where
  id : Nat
  slug : String
  name : String
  setRoot : Bool
  setParts : Option (List Nat)
  quantityInSet : Option Nat
deriving DecidableEq, Repr

/-- A lightweight catalog entry from the `/items` listing: `id`, `slug`,
`i18n.en.name`. -/
structure ItemLite where
  id : Nat
  slug : String
  name : String
deriving DecidableEq, Repr

/-- The remote market service, as seen through `_get` after JSON parsing:
`none` models a transport failure that `_get` catches and converts to
`None`.  The remote data is fixed for the duration of a run. -/
structure Env where
  itemsResp : Option (List ItemLite)
  details : String → Option Item
  ordersResp : String → Option (List Order)

/-- Embeds `get_all_items`: returns `data['data']` when the request succeeded,
else `[]`. -/
def get_all_items (env : Env) : List ItemLite :=
  env.itemsResp.getD []

/-- Embeds `get_orders`: always a fresh request; `data['data']` on success, `[]`
on failure. -/
def get_orders (env : Env) (url_name : String) : List Order :=
  (env.ordersResp url_name).getD []

/-- The mutable state of `WarframeMarketAPI`: the `item_cache` dict
(association list, newest entry first) and a counter of network requests
issued by `_get`. -/
structure ApiState where
  item_cache : List (String × Item)
  requestCount : Nat
deriving Repr

/-- Dictionary lookup in the modelled `item_cache`. -/
def cacheLookup (c : List (String × Item)) (s : String) : Option Item :=
  (c.find? (fun p => p.1 == s)).map Prod.snd

/-- Embeds `get_item_details`: on a cache hit return the cached detail with no
network request; on a miss issue one request, store a successful result
keyed by slug, and return it (`none` on transport failure, which is not
cached). -/
def get_item_details (env : Env) (st : ApiState) (url_name : String) :
    Option Item × ApiState :=
  match cacheLookup st.item_cache url_name with
  | some d => (some d, st)
  | none =>
      match env.details url_name with
      | some item_data =>
          (some item_data,
           ⟨(url_name, item_data) :: st.item_cache, st.requestCount + 1⟩)
      | none => (none, ⟨st.item_cache, st.requestCount + 1⟩)

/-- The cache only ever holds values the fixed remote service returned. -/
def CacheOK (env : Env) (st : ApiState) : Prop :=
  ∀ s d, cacheLookup st.item_cache s = some d → env.details s = some d

/-- The order filter of `get_lowest_sell_price`: `'sell'` orders from users
who are `'ingame'` or `'online'`. -/
def validOrder (o : Order) : Bool :=
  o.otype == "sell" && (o.status == "ingame" || o.status == "online")

/-- Order comparison used by the price sort. -/
def platLe (a b : Order) : Prop := a.platinum ≤ b.platinum

instance : DecidableRel platLe := fun a b => Nat.decLe a.platinum b.platinum

instance : IsTotal Order platLe := ⟨fun a b => Nat.le_total a.platinum b.platinum⟩

instance : IsTrans Order platLe := ⟨fun _ _ _ hab hbc => Nat.le_trans hab hbc⟩

/-- Embeds `get_lowest_sell_price`: filter to valid sell orders, sort ascending by
`platinum` (Python's stable sort, modelled by `insertionSort`), and return
the first price; `float('inf')` when the filtered list is empty. -/
def get_lowest_sell_price (orders : List Order) : EPrice :=
  let valid_orders := orders.filter validOrder
  match (valid_orders.insertionSort platLe).head? with
  | none => .inf
  | some o => .fin o.platinum

/-- The id → slug dictionary built by `initialize_items` (`dict` overwrite:
the last catalog entry with a given id wins). -/
def all_items_map (items : List ItemLite) (pid : Nat) : Option String :=
  (items.reverse.find? (fun it => it.id == pid)).map ItemLite.slug

/-- Embeds `qty = comp.get('quantityInSet', 1); if not qty: qty = 1` — absent,
null and zero all default to 1. -/
def effQty (q : Option Nat) : Nat :=
  match q with
  | some (n + 1) => n + 1
  | _ => 1

/-- One entry of `component_data`: `name`, the formatted `price` string,
`unit_price`, `qty`. -/
structure ComponentData where
  name : String
  price : String
  unit_price : Nat
  qty : Nat
deriving DecidableEq, Repr

/-- The dict returned by `calculate_set_profit`. -/
structure SetResult where
  name : String
  set_price : Nat
  cost : Nat
  profit : Int
  trades : Nat
  components : List ComponentData
deriving DecidableEq, Repr

/-- The part-resolution loop of `calculate_set_profit`: ids missing from
`all_items_map` are skipped (`continue`), and so are parts whose detail
fetch returns nothing. -/
def resolvedParts (env : Env) (items : List ItemLite) (parts_ids : List Nat) :
    List Item :=
  parts_ids.filterMap (fun pid => (all_items_map items pid).bind env.details)

/-- Parts not flagged `setRoot` are appended to `components`. -/
def componentsOf (resolved : List Item) : List Item :=
  resolved.filter (fun p => !p.setRoot)

/-- Root resolution: the loop assigns `set_root_item` to every part flagged
`setRoot` (last one wins); if none was flagged, fall back to the candidate's
own detail when it carries the flag itself; otherwise no root. -/
def rootOf (set_details : Item) (resolved : List Item) : Option Item :=
  match (resolved.filter (fun p => p.setRoot)).getLast? with
  | some r => some r
  | none => if set_details.setRoot then some set_details else none

/-- The component-pricing loop: price each component's order book; on any
`inf` price the whole candidate returns `None` (incomplete set), otherwise
accumulate `total_cost` and `component_data`. -/
def priceComponents (env : Env) : List Item → Option (Nat × List ComponentData)
  | [] => some (0, [])
  | comp :: rest =>
      let qty := effQty comp.quantityInSet
      match get_lowest_sell_price (get_orders env comp.slug) with
      | .inf => none
      | .fin price =>
          match priceComponents env rest with
          | none => none
          | some (tc, cds) =>
              let cost := price * qty
              some (cost + tc,
                { name := comp.name
                  price := s!"{qty}x {price} = {cost}"
                  unit_price := price
                  qty := qty } :: cds)

/-- Body of `calculate_set_profit` after the `setParts` key has been read: resolve
parts, find the root, price the root's order book, price every component,
and assemble the result dict. -/
def evalSetWithParts (env : Env) (items : List ItemLite) (set_details : Item)
    (parts_ids : List Nat) : Option SetResult :=
  match rootOf set_details (resolvedParts env items parts_ids) with
  | none => none
  | some set_root_item =>
      match get_lowest_sell_price (get_orders env set_root_item.slug) with
      | .inf => none
      | .fin set_price =>
          match priceComponents env (componentsOf (resolvedParts env items parts_ids)) with
          | none => none
          | some (total_cost, component_data) =>
              some { name := set_root_item.name
                     set_price := set_price
                     cost := total_cost
                     profit := (set_price : Int) - (total_cost : Int)
                     trades := (component_data.map ComponentData.qty).sum + 1
                     components := component_data }

/-- Embeds `calculate_set_profit`: fetch the candidate's detail (`None` → skip),
require the `setParts` key (`None` → skip), then evaluate. -/
def calculate_set_profit (env : Env) (items : List ItemLite)
    (set_item_summary : ItemLite) : Option SetResult :=
  match env.details set_item_summary.slug with
  | none => none
  | some set_details =>
      match set_details.setParts with
      | none => none
      | some parts_ids => evalSetWithParts env items set_details parts_ids

/-- Character-list version of Python's `startswith`. -/
def strStartsWith : List Char → List Char → Bool
  | [], _ => true
  | _ :: _, [] => false
  | a :: as, b :: bs => a == b && strStartsWith as bs

/-- Substring search over character lists. -/
def strHasSub (needle : List Char) : List Char → Bool
  | [] => strStartsWith needle []
  | c :: cs => strStartsWith needle (c :: cs) || strHasSub needle cs

/-- Python's `needle in hay` on strings. -/
def strContains (hay needle : String) : Bool :=
  strHasSub needle.data hay.data

/-- The result ordering of `run_scan`: ascending by `cost`. -/
def costLe (a b : SetResult) : Prop := a.cost ≤ b.cost

instance : DecidableRel costLe := fun a b => Nat.decLe a.cost b.cost

instance : IsTotal SetResult costLe := ⟨fun a b => Nat.le_total a.cost b.cost⟩

instance : IsTrans SetResult costLe := ⟨fun _ _ _ hab hbc => Nat.le_trans hab hbc⟩

/-- The candidate filter of `run_scan`: items whose English name contains
`'Prime Set'`. -/
def target_sets (all_items_data : List ItemLite) : List ItemLite :=
  all_items_data.filter (fun i => strContains i.name "Prime Set")

/-- One iteration of the scan loop: on a profitable evaluation, append it,
re-sort by cost (Python's stable `list.sort`, modelled by `insertionSort`),
and record the snapshot passed to `progress_callback`. -/
def scanStep (env : Env) (all_items_data : List ItemLite)
    (acc : List (List SetResult) × List SetResult) (item : ItemLite) :
    List (List SetResult) × List SetResult :=
  match calculate_set_profit env all_items_data item with
  | some res =>
      if res.profit > 0 then
        let results := (acc.2 ++ [res]).insertionSort costLe
        (acc.1 ++ [results], results)
      else acc
  | none => acc

/-- Embeds `run_scan`: initialize the catalog, filter Prime Sets, evaluate each in
order; returns the list of progress snapshots and the final results. -/
def run_scan (env : Env) : List (List SetResult) × List SetResult :=
  let all_items_data := get_all_items env
  (target_sets all_items_data).foldl (scanStep env all_items_data) ([], [])

/-! ### Rate limiter timing model (`_get`)

Wall-clock time is rational.  A request is described by `acq` (the
`time.time()` reading taken after the lock is acquired), `latency` (the
time from the outbound send until `session.get` returns or raises) and
`getReturns` (whether `session.get` returned a response object — only then
does the line `self.last_request_time = time.time()` execute; a connection
error or timeout raises before it). -/

/-- The constant `REQUEST_DELAY = 0.34` seconds. -/
def REQUEST_DELAY : ℚ := 34 / 100

structure ReqTiming where
  acq : ℚ
  latency : ℚ
  getReturns : Bool
deriving Repr

/-- When the outbound send starts: if less than `REQUEST_DELAY` has elapsed
since `last_request_time`, sleep out the remainder first. -/
def sendTime (last acq : ℚ) : ℚ :=
  if acq - last < REQUEST_DELAY then acq + (REQUEST_DELAY - (acq - last)) else acq

/-- The value of `last_request_time` after the request: updated to the
completion time only when `session.get` returned. -/
def lastAfter (last : ℚ) (r : ReqTiming) : ℚ :=
  if r.getReturns then sendTime last r.acq + r.latency else last

/-- The time the thread leaves the `with self.lock` block. -/
def releaseTime (last : ℚ) (r : ReqTiming) : ℚ :=
  sendTime last r.acq + r.latency

/-- The start times of the outbound network sends of a request trace. -/
def sendTimes (last : ℚ) : List ReqTiming → List ℚ
  | [] => []
  | r :: rs => sendTime last r.acq :: sendTimes (lastAfter last r) rs

/-- Well-formedness of a trace serialized by the single process-wide lock:
latencies are nonnegative and each `time.time()` reading happens no earlier
than the previous holder released the lock. -/
def ChainOK (last tmin : ℚ) : List ReqTiming → Prop
  | [] => True
  | r :: rs =>
      0 ≤ r.latency ∧ tmin ≤ r.acq ∧
      ChainOK (lastAfter last r) (releaseTime last r) rs

/-! ### Concrete scenario data -/

/-- The spec's order-filter example. -/
def exampleOrders : List Order :=
  [⟨"sell", 120, "online"⟩, ⟨"sell", 90, "offline"⟩,
   ⟨"buy", 50, "online"⟩, ⟨"sell", 200, "ingame"⟩]

/-- The "Alpha Prime Set" catalog entry (end-to-end scenario). -/
def alphaSetLite : ItemLite := ⟨0, "alpha_prime_set", "Alpha Prime Set"⟩

/-- Detail of the "Alpha Prime Set" candidate: parts `[1, 2, 3]`. -/
def alphaSet : Item :=
  ⟨0, "alpha_prime_set", "Alpha Prime Set", false, some [1, 2, 3], none⟩

/-- Detail of "Alpha Prime", the part flagged as set root. -/
def alphaPrime : Item := ⟨1, "alpha_prime", "Alpha Prime", true, none, none⟩

/-- Detail of "Alpha Blueprint", quantity 2. -/
def alphaBlueprint : Item :=
  ⟨2, "alpha_blueprint", "Alpha Blueprint", false, none, some 2⟩

/-- Detail of "Alpha Barrel", quantity 1. -/
def alphaBarrel : Item := ⟨3, "alpha_barrel", "Alpha Barrel", false, none, some 1⟩

/-- The end-to-end scenario environment: one set, root lowest ask 300,
blueprint 50, barrel 40. -/
def envC9 : Env where
  itemsResp := some [alphaSetLite, ⟨1, "alpha_prime", "Alpha Prime"⟩,
    ⟨2, "alpha_blueprint", "Alpha Blueprint"⟩, ⟨3, "alpha_barrel", "Alpha Barrel"⟩]
  details := fun s =>
    if s = "alpha_prime_set" then some alphaSet
    else if s = "alpha_prime" then some alphaPrime
    else if s = "alpha_blueprint" then some alphaBlueprint
    else if s = "alpha_barrel" then some alphaBarrel
    else none
  ordersResp := fun s =>
    if s = "alpha_prime" then some [⟨"sell", 300, "online"⟩]
    else if s = "alpha_blueprint" then some [⟨"sell", 50, "ingame"⟩]
    else if s = "alpha_barrel" then some [⟨"sell", 40, "online"⟩]
    else some []

/-- The single expected result of the end-to-end scenario. -/
def rC9 : SetResult :=
  ⟨"Alpha Prime", 300, 140, 160, 4,
   [⟨"Alpha Blueprint", "2x 50 = 100", 50, 2⟩,
    ⟨"Alpha Barrel", "1x 40 = 40", 40, 1⟩]⟩

/-- An environment whose only candidate evaluates to profit −50: root sells
for 100, its single component (quantity 1) costs 150. -/
def envNeg : Env where
  itemsResp := some [⟨0, "beta_prime_set", "Beta Prime Set"⟩,
    ⟨1, "beta_prime", "Beta Prime"⟩, ⟨2, "beta_blade", "Beta Blade"⟩]
  details := fun s =>
    if s = "beta_prime_set" then
      some ⟨0, "beta_prime_set", "Beta Prime Set", false, some [1, 2], none⟩
    else if s = "beta_prime" then
      some ⟨1, "beta_prime", "Beta Prime", true, none, none⟩
    else if s = "beta_blade" then
      some ⟨2, "beta_blade", "Beta Blade", false, none, some 1⟩
    else none
  ordersResp := fun s =>
    if s = "beta_prime" then some [⟨"sell", 100, "ingame"⟩]
    else if s = "beta_blade" then some [⟨"sell", 150, "online"⟩]
    else some []

/-- Like `envC9` but the catalog also lists id 9 → slug `"ghost"`, whose
detail fetch fails. -/
def envMissing : Env where
  itemsResp := some [alphaSetLite, ⟨1, "alpha_prime", "Alpha Prime"⟩,
    ⟨2, "alpha_blueprint", "Alpha Blueprint"⟩,
    ⟨3, "alpha_barrel", "Alpha Barrel"⟩, ⟨9, "ghost", "Ghost"⟩]
  details := envC9.details
  ordersResp := envC9.ordersResp

/-- An environment where every request fails at transport level. -/
def envDead : Env where
  itemsResp := none
  details := fun _ => none
  ordersResp := fun _ => none

example : get_lowest_sell_price exampleOrders = .fin 120 := by decide

example : run_scan envC9 = ([[rC9]], [rC9]) := by decide

example :
    calculate_set_profit envNeg (get_all_items envNeg) ⟨0, "beta_prime_set", "Beta Prime Set"⟩ =
      some ⟨"Beta Prime", 100, 150, -50, 2,
        [⟨"Beta Blade", "1x 150 = 150", 150, 1⟩]⟩ := by decide

example : run_scan envNeg = ([], []) := by decide

/-- Any emitted evaluation counts one trade per component quantity plus
one for the set itself. -/
theorem calc_trades (env : Env) (items : List ItemLite) (summary : ItemLite)
    (res : SetResult) (h : calculate_set_profit env items summary = some res) :
    res.trades = (res.components.map ComponentData.qty).sum + 1 := by
  unfold calculate_set_profit at h
  split at h
  · cases h
  next sd hd =>
    split at h
    · cases h
    next pids hp =>
      unfold evalSetWithParts at h
      split at h
      · cases h
      next root hr =>
        split at h
        · cases h
        next sp hsp =>
          split at h
          · cases h
          next tc cds hpc =>
            cases h
            rfl


/-! ### Helper lemmas -/

/-- Under `CacheOK` the value returned by `get_item_details` is exactly
`env.details`: the cache is semantically transparent, so the value-level
embedding below reads `env.details` directly where the source calls
`self.api.get_item_details`. -/
theorem get_item_details_fst (env : Env) (st : ApiState) (s : String)
    (h : CacheOK env st) : (get_item_details env st s).1 = env.details s := by
  unfold get_item_details
  cases hc : cacheLookup st.item_cache s with
  | some d => simpa using (h s d hc).symm
  | none => cases hd : env.details s <;> simp [hd]

/-- Moreover `get_item_details` preserves cache coherence. -/
theorem get_item_details_cacheOK (env : Env) (st : ApiState) (s : String)
    (h : CacheOK env st) : CacheOK env (get_item_details env st s).2 := by
  unfold get_item_details
  cases hc : cacheLookup st.item_cache s with
  | some d => simpa using h
  | none =>
      cases hd : env.details s with
      | some d =>
          intro s' d' h'
          by_cases hs : s' = s
          · subst hs
            simp [cacheLookup] at h'
            rw [h'] at hd; exact hd
          · apply h s' d'
            unfold cacheLookup at h' ⊢
            rwa [List.find?_cons_of_neg _ (by simpa using Ne.symm hs)] at h'
      | none => simpa using h

/-- When the filtered order list is nonempty, `get_lowest_sell_price`
returns the platinum of some valid order that is minimal among them. -/
theorem glsp_min (orders : List Order) (h : orders.filter validOrder ≠ []) :
    ∃ o, o ∈ orders.filter validOrder ∧
      get_lowest_sell_price orders = .fin o.platinum ∧
      ∀ o2 ∈ orders.filter validOrder, o.platinum ≤ o2.platinum := by
  have hperm := List.perm_insertionSort platLe (orders.filter validOrder)
  have hsorted := List.sorted_insertionSort platLe (orders.filter validOrder)
  cases hs : (orders.filter validOrder).insertionSort platLe with
  | nil =>
      rw [hs] at hperm
      exact absurd hperm.symm.eq_nil h
  | cons a t =>
      rw [hs] at hperm hsorted
      refine ⟨a, hperm.subset (List.mem_cons_self a t), ?_, ?_⟩
      · simp [get_lowest_sell_price, hs]
      · intro o2 ho2
        rcases List.mem_cons.mp (hperm.mem_iff.mpr ho2) with rfl | ho2t
        · exact Nat.le_refl _
        · exact (List.sorted_cons.mp hsorted).1 o2 ho2t

/-- A component with no valid sell price makes the whole pricing loop
return `None`. -/
theorem priceComponents_none (env : Env) (l : List Item) (c : Item)
    (hc : c ∈ l)
    (hinf : get_lowest_sell_price (get_orders env c.slug) = .inf) :
    priceComponents env l = none := by
  induction l with
  | nil => cases hc
  | cons a t ih =>
      rcases List.mem_cons.mp hc with rfl | ht
      · simp [priceComponents, hinf]
      · cases hp : get_lowest_sell_price (get_orders env a.slug) with
        | inf => simp [priceComponents, hp]
        | fin p => simp [priceComponents, hp, ih ht]

/-- If the pricing loop succeeds, every component had a valid sell price. -/
theorem priceComponents_fin (env : Env) (l : List Item) (tc : Nat)
    (cds : List ComponentData)
    (h : priceComponents env l = some (tc, cds)) :
    ∀ c ∈ l, get_lowest_sell_price (get_orders env c.slug) ≠ .inf := by
  intro c hc hinf
  rw [priceComponents_none env l c hc hinf] at h
  cases h

/-! ### Claims -/

/-- C2: `get_lowest_sell_price` keeps exactly the sell orders from online
or ingame sellers; an empty filtered set yields the `inf` sentinel, which
is larger than any real price; otherwise the minimum filtered price is
returned; on the spec's four-order example the result is 120. -/
theorem lowest_sell_price_spec (orders : List Order) :
    (∀ o, o ∈ orders.filter validOrder ↔
        o ∈ orders ∧ o.otype = "sell" ∧
          (o.status = "online" ∨ o.status = "ingame"))
    ∧ (orders.filter validOrder = [] → get_lowest_sell_price orders = .inf)
    ∧ (∀ p : Nat, EPrice.lt (.fin p) .inf ∧ ¬ EPrice.lt .inf (.fin p))
    ∧ (orders.filter validOrder ≠ [] →
        ∃ o, o ∈ orders.filter validOrder ∧
          get_lowest_sell_price orders = .fin o.platinum ∧
          ∀ o2 ∈ orders.filter validOrder, o.platinum ≤ o2.platinum)
    ∧ get_lowest_sell_price exampleOrders = .fin 120 := by
  refine ⟨?_, ?_, ?_, glsp_min orders, by decide⟩
  · intro o
    simp only [List.mem_filter, validOrder, Bool.and_eq_true, Bool.or_eq_true,
      beq_iff_eq]
    tauto
  · intro h
    simp [get_lowest_sell_price, h]
  · intro p
    exact ⟨trivial, fun h => h⟩

/-- Witness for C2 at the spec's example order list. -/
theorem lowest_sell_price_spec_witness :
    ∃ o, o ∈ exampleOrders.filter validOrder ∧
      get_lowest_sell_price exampleOrders = .fin o.platinum ∧
      ∀ o2 ∈ exampleOrders.filter validOrder, o.platinum ≤ o2.platinum :=
  (lowest_sell_price_spec exampleOrders).2.2.2.1 (by decide)

/-- C1: a `SetResult` is produced only when the resolved root and every
resolved component have a valid sell price, and then the emitted cost and
component list are exactly those of the full pricing loop (no component
omitted or priced at zero); if any resolved component lacks a valid sell
price the whole candidate yields `None`. -/
theorem calc_requires_all_prices (env : Env) (items : List ItemLite)
    (summary : ItemLite) (sd : Item) (pids : List Nat)
    (hd : env.details summary.slug = some sd) (hp : sd.setParts = some pids) :
    (∀ res, calculate_set_profit env items summary = some res →
      ∃ root, rootOf sd (resolvedParts env items pids) = some root ∧
        get_lowest_sell_price (get_orders env root.slug) ≠ .inf ∧
        (∀ c ∈ componentsOf (resolvedParts env items pids),
          get_lowest_sell_price (get_orders env c.slug) ≠ .inf) ∧
        priceComponents env (componentsOf (resolvedParts env items pids)) =
          some (res.cost, res.components))
    ∧ ((∃ c ∈ componentsOf (resolvedParts env items pids),
          get_lowest_sell_price (get_orders env c.slug) = .inf) →
        calculate_set_profit env items summary = none) := by
  have hcalc : calculate_set_profit env items summary =
      evalSetWithParts env items sd pids := by
    simp [calculate_set_profit, hd, hp]
  constructor
  · intro res hres
    rw [hcalc] at hres
    unfold evalSetWithParts at hres
    split at hres
    · cases hres
    next root hr =>
      split at hres
      · cases hres
      next sp hsp =>
        split at hres
        · cases hres
        next tc cds hpc =>
          refine ⟨root, hr, by simp [hsp],
            priceComponents_fin env _ tc cds hpc, ?_⟩
          cases hres
          simpa using hpc
  · rintro ⟨c, hc, hinf⟩
    rw [hcalc]
    unfold evalSetWithParts
    split
    · rfl
    · split
      · rfl
      · rw [priceComponents_none env _ c hc hinf]

/-- One scan iteration preserves sortedness of the accumulated results and
of every recorded snapshot. -/
theorem scanStep_sorted (env : Env) (all : List ItemLite)
    (acc : List (List SetResult) × List SetResult) (item : ItemLite)
    (h1 : ∀ snap ∈ acc.1, List.Sorted costLe snap)
    (h2 : List.Sorted costLe acc.2) :
    (∀ snap ∈ (scanStep env all acc item).1, List.Sorted costLe snap) ∧
      List.Sorted costLe (scanStep env all acc item).2 := by
  unfold scanStep
  split
  · split
    · refine ⟨?_, List.sorted_insertionSort costLe _⟩
      intro snap hsnap
      rcases List.mem_append.mp hsnap with h | h
      · exact h1 snap h
      · rw [List.mem_singleton.mp h]
        exact List.sorted_insertionSort costLe _
    · exact ⟨h1, h2⟩
  · exact ⟨h1, h2⟩

/-- The scan fold preserves the sortedness invariant. -/
theorem foldl_scan_sorted (env : Env) (all : List ItemLite)
    (l : List ItemLite) (acc : List (List SetResult) × List SetResult)
    (h1 : ∀ snap ∈ acc.1, List.Sorted costLe snap)
    (h2 : List.Sorted costLe acc.2) :
    (∀ snap ∈ (l.foldl (scanStep env all) acc).1, List.Sorted costLe snap) ∧
      List.Sorted costLe (l.foldl (scanStep env all) acc).2 := by
  induction l generalizing acc with
  | nil => exact ⟨h1, h2⟩
  | cons a t ih =>
      exact ih _ (scanStep_sorted env all acc a h1 h2).1
        (scanStep_sorted env all acc a h1 h2).2

/-- C4: throughout `run_scan`, every snapshot handed to the progress
callback and the final returned collection are sorted non-decreasing by
total component cost. -/
theorem run_scan_sorted (env : Env) :
    (∀ snap ∈ (run_scan env).1, List.Sorted costLe snap) ∧
      List.Sorted costLe (run_scan env).2 :=
  foldl_scan_sorted env (get_all_items env) (target_sets (get_all_items env))
    ([], []) (by simp) (by simp)

/-- Witness for C4: the scenario's single snapshot is sorted. -/
theorem run_scan_sorted_witness : List.Sorted costLe [rC9] :=
  (run_scan_sorted envC9).1 [rC9] (by decide)

/-- One scan iteration keeps only strictly profitable evaluations. -/
theorem scanStep_profit (env : Env) (all : List ItemLite)
    (acc : List (List SetResult) × List SetResult) (item : ItemLite)
    (h1 : ∀ snap ∈ acc.1, ∀ r ∈ snap, r.profit > 0)
    (h2 : ∀ r ∈ acc.2, r.profit > 0) :
    (∀ snap ∈ (scanStep env all acc item).1, ∀ r ∈ snap, r.profit > 0) ∧
      (∀ r ∈ (scanStep env all acc item).2, r.profit > 0) := by
  unfold scanStep
  split
  next res hres =>
    split
    next hpos =>
      have hnew : ∀ r ∈ (acc.2 ++ [res]).insertionSort costLe, r.profit > 0 := by
        intro r hr
        rcases List.mem_append.mp ((List.mem_insertionSort costLe).mp hr) with h | h
        · exact h2 r h
        · rw [List.mem_singleton.mp h]; exact hpos
      refine ⟨?_, hnew⟩
      intro snap hsnap
      rcases List.mem_append.mp hsnap with h | h
      · exact h1 snap h
      · rw [List.mem_singleton.mp h]; exact hnew
    next => exact ⟨h1, h2⟩
  next => exact ⟨h1, h2⟩

/-- The scan fold keeps only strictly profitable evaluations. -/
theorem foldl_scan_profit (env : Env) (all : List ItemLite)
    (l : List ItemLite) (acc : List (List SetResult) × List SetResult)
    (h1 : ∀ snap ∈ acc.1, ∀ r ∈ snap, r.profit > 0)
    (h2 : ∀ r ∈ acc.2, r.profit > 0) :
    (∀ snap ∈ (l.foldl (scanStep env all) acc).1, ∀ r ∈ snap, r.profit > 0) ∧
      (∀ r ∈ (l.foldl (scanStep env all) acc).2, r.profit > 0) := by
  induction l generalizing acc with
  | nil => exact ⟨h1, h2⟩
  | cons a t ih =>
      exact ih _ (scanStep_profit env all acc a h1 h2).1
        (scanStep_profit env all acc a h1 h2).2

/-- Results already accumulated survive one scan iteration. -/
theorem scanStep_mem_mono (env : Env) (all : List ItemLite)
    (acc : List (List SetResult) × List SetResult) (item : ItemLite)
    (r : SetResult) (h : r ∈ acc.2) : r ∈ (scanStep env all acc item).2 := by
  unfold scanStep
  split
  · split
    · exact (List.mem_insertionSort costLe).mpr (List.mem_append.mpr (Or.inl h))
    · exact h
  · exact h

/-- Results already accumulated survive the rest of the scan. -/
theorem foldl_scan_mem_mono (env : Env) (all : List ItemLite)
    (l : List ItemLite) (acc : List (List SetResult) × List SetResult)
    (r : SetResult) (h : r ∈ acc.2) :
    r ∈ (l.foldl (scanStep env all) acc).2 := by
  induction l generalizing acc with
  | nil => exact h
  | cons a t ih => exact ih _ (scanStep_mem_mono env all acc a r h)

/-- Every candidate whose evaluation is strictly profitable ends up in the
scan's results. -/
theorem foldl_scan_complete (env : Env) (all : List ItemLite)
    (l : List ItemLite) (acc : List (List SetResult) × List SetResult)
    (item : ItemLite) (r : SetResult) (hitem : item ∈ l)
    (hcalc : calculate_set_profit env all item = some r)
    (hpos : r.profit > 0) : r ∈ (l.foldl (scanStep env all) acc).2 := by
  induction l generalizing acc with
  | nil => cases hitem
  | cons a t ih =>
      rcases List.mem_cons.mp hitem with rfl | ht
      · refine foldl_scan_mem_mono env all t (scanStep env all acc item) r ?_
        unfold scanStep
        split
        next res hres =>
          rw [hcalc] at hres
          cases hres
          rw [if_pos hpos]
          show r ∈ List.insertionSort costLe (acc.2 ++ [r])
          exact (List.mem_insertionSort costLe).mpr
            (List.mem_append.mpr (Or.inr (List.mem_singleton_self r)))
        next hnone =>
          rw [hcalc] at hnone
          cases hnone
      · exact ih _ ht

/-- C6: an evaluation is delivered (in every snapshot and in the final
collection) only if its profit is strictly positive, and every candidate
of the scan whose evaluation has strictly positive profit appears in the
final collection; the concrete candidate with root price 100 and component
cost 150 (profit −50) is evaluated but never delivered. -/
theorem run_scan_profit_filter (env : Env) :
    (∀ r ∈ (run_scan env).2, r.profit > 0)
    ∧ (∀ snap ∈ (run_scan env).1, ∀ r ∈ snap, r.profit > 0)
    ∧ (∀ item ∈ target_sets (get_all_items env), ∀ r,
        calculate_set_profit env (get_all_items env) item = some r →
        r.profit > 0 → r ∈ (run_scan env).2)
    ∧ (calculate_set_profit envNeg (get_all_items envNeg)
          ⟨0, "beta_prime_set", "Beta Prime Set"⟩ =
        some ⟨"Beta Prime", 100, 150, -50, 2,
          [⟨"Beta Blade", "1x 150 = 150", 150, 1⟩]⟩)
    ∧ run_scan envNeg = ([], []) := by
  refine ⟨?_, ?_, ?_, by decide, by decide⟩
  · exact (foldl_scan_profit env (get_all_items env)
      (target_sets (get_all_items env)) ([], []) (by simp) (by simp)).2
  · exact (foldl_scan_profit env (get_all_items env)
      (target_sets (get_all_items env)) ([], []) (by simp) (by simp)).1
  · intro item hitem r hcalc hpos
    exact foldl_scan_complete env (get_all_items env)
      (target_sets (get_all_items env)) ([], []) item r hitem hcalc hpos

/-- Witness for C6: the scenario's profitable result is in the output. -/
theorem run_scan_profit_filter_witness : rC9 ∈ (run_scan envC9).2 :=
  (run_scan_profit_filter envC9).2.2.1 alphaSetLite (by decide) rC9
    (by decide) (by decide)

/-- C7: two-step root resolution: when at least one resolved part carries
the root flag the root is such a part; when none does, the candidate's own
detail serves as root exactly when it carries the flag itself; failing
both, the candidate yields no evaluation. -/
theorem root_resolution (env : Env) (items : List ItemLite) (sd : Item)
    (pids : List Nat) :
    ((resolvedParts env items pids).filter (fun p => p.setRoot) ≠ [] →
      ∃ r, rootOf sd (resolvedParts env items pids) = some r ∧
        r ∈ resolvedParts env items pids ∧ r.setRoot = true)
    ∧ ((resolvedParts env items pids).filter (fun p => p.setRoot) = [] →
        sd.setRoot = true →
        rootOf sd (resolvedParts env items pids) = some sd)
    ∧ ((resolvedParts env items pids).filter (fun p => p.setRoot) = [] →
        sd.setRoot = false →
        rootOf sd (resolvedParts env items pids) = none ∧
        evalSetWithParts env items sd pids = none) := by
  refine ⟨?_, ?_, ?_⟩
  · intro hne
    have he := List.getLast?_eq_getLast_of_ne_nil hne
    set r := ((resolvedParts env items pids).filter (fun p => p.setRoot)).getLast hne with hr
    have hmem : r ∈ (resolvedParts env items pids).filter (fun p => p.setRoot) :=
      List.getLast_mem hne
    refine ⟨r, ?_, (List.mem_filter.mp hmem).1, (List.mem_filter.mp hmem).2⟩
    simp [rootOf, he]
  · intro hnil hroot
    simp [rootOf, hnil, hroot]
  · intro hnil hroot
    have h0 : rootOf sd (resolvedParts env items pids) = none := by
      simp [rootOf, hnil, hroot]
    exact ⟨h0, by simp [evalSetWithParts, h0]⟩

/-- Witness for C7 at the end-to-end scenario (flagged part present) and at
a flagless self-root candidate. -/
theorem root_resolution_witness :
    (∃ r, rootOf alphaSet (resolvedParts envC9 (get_all_items envC9) [1, 2, 3]) =
        some r ∧
      r ∈ resolvedParts envC9 (get_all_items envC9) [1, 2, 3] ∧
      r.setRoot = true)
    ∧ rootOf ⟨7, "self", "Self Prime Set", true, some [], none⟩
        (resolvedParts envC9 (get_all_items envC9) []) =
      some ⟨7, "self", "Self Prime Set", true, some [], none⟩
    ∧ rootOf ⟨7, "self", "Self Prime Set", false, some [], none⟩
        (resolvedParts envC9 (get_all_items envC9) []) = none :=
  ⟨(root_resolution envC9 (get_all_items envC9) alphaSet [1, 2, 3]).1 (by decide),
   (root_resolution envC9 (get_all_items envC9) _ []).2.1 (by decide) rfl,
   ((root_resolution envC9 (get_all_items envC9) _ []).2.2 (by decide) rfl).1⟩

/-- C10: a declared part id that resolves to a slug whose detail fetch
yields nothing is dropped by the resolution loop, and the candidate's
evaluation proceeds exactly as if the id were not declared. -/
theorem missing_detail_skipped (env : Env) (items : List ItemLite) (sd : Item)
    (pid : Nat) (slug : String) (xs ys : List Nat)
    (hm : all_items_map items pid = some slug)
    (hf : env.details slug = none) :
    resolvedParts env items (xs ++ pid :: ys) =
      resolvedParts env items (xs ++ ys)
    ∧ evalSetWithParts env items sd (xs ++ pid :: ys) =
        evalSetWithParts env items sd (xs ++ ys) := by
  have h1 : resolvedParts env items (xs ++ pid :: ys) =
      resolvedParts env items (xs ++ ys) := by
    unfold resolvedParts
    rw [List.filterMap_append, List.filterMap_append]
    congr 1
    simp [List.filterMap_cons, hm, hf]
  exact ⟨h1, by unfold evalSetWithParts; rw [h1]⟩

/-- Witness for C10: part id 9 of `envC9` maps to a slug with no detail. -/
theorem missing_detail_skipped_witness :
    resolvedParts envMissing (get_all_items envMissing) ([1] ++ 9 :: [2]) =
      resolvedParts envMissing (get_all_items envMissing) ([1] ++ [2])
    ∧ evalSetWithParts envMissing (get_all_items envMissing) alphaSet
        ([1] ++ 9 :: [2]) =
      evalSetWithParts envMissing (get_all_items envMissing) alphaSet
        ([1] ++ [2]) :=
  missing_detail_skipped envMissing (get_all_items envMissing) alphaSet 9
    "ghost" [1] [2] (by decide) (by decide)

/-- C9: the end-to-end scenario yields exactly one result — set sell price
300, total component cost 140 (the sum of unit price × quantity over its
components), profit 160, trade count 4 — and in general the trade count of
any emitted evaluation is the sum of component quantities plus one. -/
theorem end_to_end_scenario :
    run_scan envC9 = ([[rC9]], [rC9])
    ∧ rC9.name = "Alpha Prime" ∧ rC9.set_price = 300 ∧ rC9.cost = 140
    ∧ rC9.profit = 160 ∧ rC9.trades = 4
    ∧ rC9.cost = (rC9.components.map (fun c => c.unit_price * c.qty)).sum
    ∧ (∀ env items summary res,
        calculate_set_profit env items summary = some res →
        res.trades = (res.components.map ComponentData.qty).sum + 1) :=
  ⟨by decide, rfl, rfl, rfl, rfl, rfl, by decide, calc_trades⟩

/-- Witness for C9's general trade-count law at the scenario itself. -/
theorem end_to_end_scenario_witness :
    rC9.trades = (rC9.components.map ComponentData.qty).sum + 1 :=
  end_to_end_scenario.2.2.2.2.2.2.2 envC9 (get_all_items envC9) alphaSetLite
    rC9 (by decide)

/-- C5: transport failures surface as empty or absent results — a failed
item listing gives `[]`, failed orders give `[]`, a failed uncached detail
fetch gives `none` — and a scan against a dead service still returns an
empty collection rather than a fault. -/
theorem transport_failure_handling (env : Env) (st : ApiState) (s : String) :
    (env.itemsResp = none → get_all_items env = [])
    ∧ (env.ordersResp s = none → get_orders env s = [])
    ∧ (env.details s = none → cacheLookup st.item_cache s = none →
        (get_item_details env st s).1 = none)
    ∧ (env.itemsResp = none → run_scan env = ([], []))
    ∧ run_scan envDead = ([], []) := by
  refine ⟨?_, ?_, ?_, ?_, by decide⟩
  · intro h; simp [get_all_items, h]
  · intro h; simp [get_orders, h]
  · intro h hc; simp [get_item_details, h, hc]
  · intro h; simp [run_scan, get_all_items, h, target_sets]

/-- Witness for C5 at the all-failing environment. -/
theorem transport_failure_handling_witness :
    get_all_items envDead = [] ∧ get_orders envDead "x" = []
    ∧ (get_item_details envDead ⟨[], 0⟩ "x").1 = none
    ∧ run_scan envDead = ([], []) :=
  ⟨(transport_failure_handling envDead ⟨[], 0⟩ "x").1 rfl,
   (transport_failure_handling envDead ⟨[], 0⟩ "x").2.1 rfl,
   (transport_failure_handling envDead ⟨[], 0⟩ "x").2.2.1 rfl rfl,
   (transport_failure_handling envDead ⟨[], 0⟩ "x").2.2.2.1 rfl⟩

/-- C8 as stated is false: a transport-failing detail fetch is not cached,
so calling `get_item_details` twice on such a slug issues two network
requests, not one. -/
theorem cache_idempotence_counterexample :
    (get_item_details envDead
        (get_item_details envDead ⟨[], 0⟩ "ghost").2 "ghost").2.requestCount = 2
    ∧ (get_item_details envDead
        (get_item_details envDead ⟨[], 0⟩ "ghost").2 "ghost").2.requestCount ≠ 1 := by
  decide

/-- C8 amended: two consecutive calls always return structurally equal
results; and for a slug that is uncached and whose fetch succeeds, the two
calls issue exactly one network request — the parsed detail is stored
keyed by the slug whatever its set fields, and the second call is answered
from the cache with no state change. -/
theorem cache_idempotence (env : Env) (st : ApiState) (s : String) :
    ((get_item_details env (get_item_details env st s).2 s).1 =
      (get_item_details env st s).1)
    ∧ (∀ d, cacheLookup st.item_cache s = none → env.details s = some d →
        (get_item_details env st s).1 = some d ∧
        cacheLookup (get_item_details env st s).2.item_cache s = some d ∧
        (get_item_details env st s).2.requestCount = st.requestCount + 1 ∧
        (get_item_details env (get_item_details env st s).2 s).2 =
          (get_item_details env st s).2) := by
  have hself : ∀ (c : List (String × Item)) (d : Item),
      cacheLookup ((s, d) :: c) s = some d := by
    intro c d; simp [cacheLookup]
  constructor
  · cases hc : cacheLookup st.item_cache s with
    | some d => simp [get_item_details, hc]
    | none =>
        cases hd : env.details s with
        | some d => simp [get_item_details, hc, hd, hself]
        | none => simp [get_item_details, hc, hd]
  · intro d hc hd
    refine ⟨?_, ?_, ?_, ?_⟩ <;> simp [get_item_details, hc, hd, hself]

/-- Witness for C8's amended statement on a fresh client and a slug whose
fetch succeeds. -/
theorem cache_idempotence_witness :
    (get_item_details envC9 ⟨[], 0⟩ "alpha_prime").1 = some alphaPrime ∧
    cacheLookup (get_item_details envC9 ⟨[], 0⟩ "alpha_prime").2.item_cache
        "alpha_prime" = some alphaPrime ∧
    (get_item_details envC9 ⟨[], 0⟩ "alpha_prime").2.requestCount = 0 + 1 ∧
    (get_item_details envC9
        (get_item_details envC9 ⟨[], 0⟩ "alpha_prime").2 "alpha_prime").2 =
      (get_item_details envC9 ⟨[], 0⟩ "alpha_prime").2 :=
  (cache_idempotence envC9 ⟨[], 0⟩ "alpha_prime").2 alphaPrime rfl (by decide)

/-- A send never starts earlier than `REQUEST_DELAY` after the recorded
`last_request_time`. -/
theorem sendTime_ge (last acq : ℚ) :
    last + REQUEST_DELAY ≤ sendTime last acq := by
  unfold sendTime
  split
  next h => linarith
  next h => linarith

/-- Consecutive send gaps over a trace whose requests all completed their
timestamp update, together with a bound on the first send. -/
theorem sendTimes_gap (rs : List ReqTiming) :
    ∀ last tmin, ChainOK last tmin rs → (∀ r ∈ rs, r.getReturns = true) →
      List.Chain' (fun a b => a + REQUEST_DELAY ≤ b) (sendTimes last rs) ∧
      (∀ s ∈ (sendTimes last rs).head?, last + REQUEST_DELAY ≤ s) := by
  induction rs with
  | nil => intro last tmin _ _; exact ⟨List.chain'_nil, by simp [sendTimes]⟩
  | cons r rs ih =>
      intro last tmin hok hret
      obtain ⟨hlat, hacq, hok2⟩ := hok
      have hretr : r.getReturns = true := hret r (List.mem_cons_self r rs)
      have hih := ih (lastAfter last r) (releaseTime last r) hok2
        (fun x hx => hret x (List.mem_cons_of_mem r hx))
      constructor
      · rw [sendTimes]
        apply List.chain'_cons'.mpr
        refine ⟨?_, hih.1⟩
        intro s hs
        have h1 := hih.2 s hs
        have h2 : lastAfter last r = sendTime last r.acq + r.latency := by
          simp [lastAfter, hretr]
        rw [h2] at h1
        linarith
      · intro s hs
        simp only [sendTimes, List.head?_cons, Option.mem_def,
          Option.some.injEq] at hs
        rw [← hs]
        exact sendTime_ge last r.acq

/-- C3 amended: over any lock-serialized trace all of whose requests get a
response back from `session.get` (so the `last_request_time` update runs —
this includes requests failing with a non-2xx status or a malformed body),
the start times of consecutive outbound sends are at least `REQUEST_DELAY`
apart. -/
theorem rate_limit_gap (last tmin : ℚ) (rs : List ReqTiming)
    (hok : ChainOK last tmin rs) (hret : ∀ r ∈ rs, r.getReturns = true) :
    List.Chain' (fun a b => a + REQUEST_DELAY ≤ b) (sendTimes last rs) :=
  (sendTimes_gap rs last tmin hok hret).1

/-- Witness for C3's amended statement on a concrete two-request trace. -/
theorem rate_limit_gap_witness :
    List.Chain' (fun a b => a + REQUEST_DELAY ≤ b)
      (sendTimes 0 [⟨1, 1/10, true⟩, ⟨12/10, 0, true⟩]) := by
  refine rate_limit_gap 0 0 _ ?_ ?_
  · refine ⟨by norm_num, by norm_num, ⟨by norm_num, ?_, trivial⟩⟩
    norm_num [lastAfter, releaseTime, sendTime, REQUEST_DELAY]
  · intro r hr
    rcases List.mem_cons.mp hr with rfl | hr
    · rfl
    · rcases List.mem_cons.mp hr with rfl | hr
      · rfl
      · cases hr

/-- C3 as stated is false on the code: when `session.get` raises (e.g. a
timeout), the line updating `last_request_time` is skipped, so a request
sent at t = 10 that times out after 1 ms followed by a request acquiring
the lock at t = 10.001 produces two sends 1 ms apart — far less than
`REQUEST_DELAY` — even though the trace is lock-serialized. -/
theorem rate_limit_gap_counterexample :
    ChainOK 0 0 [⟨10, 1/1000, false⟩, ⟨10001/1000, 0, true⟩]
    ∧ sendTimes 0 [⟨10, 1/1000, false⟩, ⟨10001/1000, 0, true⟩] =
        [10, 10001/1000]
    ∧ ¬ List.Chain' (fun a b => a + REQUEST_DELAY ≤ b)
        (sendTimes 0 [⟨10, 1/1000, false⟩, ⟨10001/1000, 0, true⟩]) := by
  refine ⟨⟨by norm_num, by norm_num, ⟨by norm_num, ?_, trivial⟩⟩, ?_, ?_⟩
  · norm_num [lastAfter, releaseTime, sendTime, REQUEST_DELAY]
  · norm_num [sendTimes, lastAfter, sendTime, REQUEST_DELAY]
  · norm_num [sendTimes, lastAfter, sendTime, REQUEST_DELAY,
      List.chain'_cons, List.chain'_singleton]

/-- Witness for C1 at the end-to-end scenario environment. -/
theorem calc_requires_all_prices_witness :
    ∃ root,
      rootOf alphaSet (resolvedParts envC9 (get_all_items envC9) [1, 2, 3]) =
        some root ∧
      get_lowest_sell_price (get_orders envC9 root.slug) ≠ .inf ∧
      (∀ c ∈ componentsOf (resolvedParts envC9 (get_all_items envC9) [1, 2, 3]),
        get_lowest_sell_price (get_orders envC9 c.slug) ≠ .inf) ∧
      priceComponents envC9
          (componentsOf (resolvedParts envC9 (get_all_items envC9) [1, 2, 3])) =
        some (rC9.cost, rC9.components) :=
  (calc_requires_all_prices envC9 (get_all_items envC9) alphaSetLite alphaSet
    [1, 2, 3] (by decide) (by decide)).1 rC9 (by decide)

end WarframeCalc
